import Mathlib

/-!
Verification development for the dsl-log-viewer event pipeline
(src/components/LogPlaybackXterm.tsx).

The TypeScript source is shallowly embedded below.  Numeric JSON values
(IEEE doubles in the source) are modelled as rationals; timestamps
(millisecond values of Date.getTime) as integers.  JSON decoding of a
line is modelled by the DecodedLine type: each input line either fails
to decode, decodes to an unrecognized record kind, or decodes to one of
the two recognized kinds.  Text written to the terminal sink via
writeln is modelled structurally, one OutLine constructor per kind of
line the component writes.
-/

namespace DslLogViewer

/-- One row of a damage payload bySource or byTarget list. -/
structure DamageActorRow where
  actor : String
  totalAsSource : ℚ
  totalAsTarget : ℚ
  countAsSource : ℚ
  countAsTarget : ℚ
deriving DecidableEq

/-- One raw damage event; an amount of exactly 0 denotes a miss. -/
structure DamageEvent where
  raw : String
  source : String
  target : String
  verbKey : String
  amount : ℚ
deriving DecidableEq

/-- The payload of a damage record.  The misses field is optional
because the source checks `typeof p.misses === "number"` before using
it; the events and bySource lists are optional fields of the interface. -/
structure DamagePayload where
  totalDamage : ℚ
  hits : ℚ
  misses : Option ℚ
  events : Option (List DamageEvent)
  bySource : Option (List DamageActorRow)
  byTarget : Option (List DamageActorRow)
deriving DecidableEq

/-- A normalized timeline entry: ts is the millisecond timestamp. -/
inductive LogEntry where
  | message (ts : ℤ) (msg : String)
  | damage (ts : ℤ) (payload : DamagePayload)
deriving DecidableEq

/-- Timestamp of an entry (Date.getTime of the ts field). -/
def LogEntry.ts : LogEntry → ℤ
  | .message t _ => t
  | .damage t _ => t

/-- Per-actor accumulator cell; also used for the totals record, which
has the same `{damage, hits, misses}` shape in the source. -/
structure PerActor where
  damage : ℚ
  hits : ℚ
  misses : ℚ
deriving DecidableEq

def PerActor.zero : PerActor := ⟨0, 0, 0⟩

/-- 5 * 60 * 1000, the fight-gap threshold in milliseconds. -/
def FIVE_MIN_MS : ℤ := 5 * 60 * 1000

/-- JS whitespace characters matched by the regex class backslash-s
(the common ones; the actor names handled here use plain spaces). -/
def isJsSpace (c : Char) : Bool :=
  c == ' ' || c == '\t' || c == '\n' || c == '\r' || c == '\x0b' || c == '\x0c'

/-- normalizeActor: strip one leading bracketed tag, the replacement of
the anchored pattern: optional whitespace, a bracket, non-bracket
characters, the closing bracket, optional whitespace.  If the pattern
does not match, the name is returned unchanged. -/
def normalizeActor (name : String) : String :=
  let afterWs := name.data.dropWhile isJsSpace
  match afterWs with
  | '[' :: rest =>
    let inner := rest.dropWhile (fun c => !(c == ']'))
    match inner with
    | ']' :: rest2 => String.mk (rest2.dropWhile isJsSpace)
    | _ => name
  | _ => name

/-- JS Map.get on the insertion-ordered association list modelling
byActorRef / the per-round map. -/
def mapGet : List (String × PerActor) → String → Option PerActor
  | [], _ => none
  | (k, v) :: rest, a => if k = a then some v else mapGet rest a

/-- JS Map.set: replace in place when the key exists, append otherwise
(JS Maps preserve insertion order). -/
def mapSet : List (String × PerActor) → String → PerActor → List (String × PerActor)
  | [], a, v => [(a, v)]
  | (k, w) :: rest, a, v =>
    if k = a then (a, v) :: rest else (k, w) :: mapSet rest a v

/-- `map.get(name) ?? { damage: 0, hits: 0, misses: 0 }`. -/
def getPA (m : List (String × PerActor)) (a : String) : PerActor :=
  (mapGet m a).getD PerActor.zero

/-- Truthiness of `xs && xs.length` / `xs?.length` for an optional list. -/
def optNonempty {α : Type} : Option (List α) → Bool
  | some l => !l.isEmpty
  | none => false

/-- Loop body for one bySource row: add its source damage and source
hit count under the normalized actor name. -/
def rowStep (m : List (String × PerActor)) (row : DamageActorRow) :
    List (String × PerActor) :=
  let name := normalizeActor row.actor
  let cur := getPA m name
  mapSet m name
    { cur with
      damage := cur.damage + row.totalAsSource
      hits := cur.hits + row.countAsSource }

/-- Loop body for one event in the fight-level events branch: positive
amounts add damage and one hit; the entry is written back either way. -/
def evStep (m : List (String × PerActor)) (ev : DamageEvent) :
    List (String × PerActor) :=
  let name := normalizeActor ev.source
  let cur := getPA m name
  mapSet m name
    (if 0 < ev.amount then
      { cur with damage := cur.damage + ev.amount, hits := cur.hits + 1 }
    else cur)

/-- Loop body for one event in the misses pass: a zero amount adds one
miss under the normalized source name. -/
def missStep (m : List (String × PerActor)) (ev : DamageEvent) :
    List (String × PerActor) :=
  if ev.amount = 0 then
    let name := normalizeActor ev.source
    let cur := getPA m name
    mapSet m name { cur with misses := cur.misses + 1 }
  else m

/-- addRoundToActors: accumulate one damage round into the fight-level
per-actor map (lines 291-322 of the source). -/
def addRoundToActors (p : DamagePayload) (map : List (String × PerActor)) :
    List (String × PerActor) :=
  let hasBySource := optNonempty p.bySource
  let m1 :=
    if hasBySource then (p.bySource.getD []).foldl rowStep map
    else if optNonempty p.events then (p.events.getD []).foldl evStep map
    else map
  -- Misses by source from events (runs whether or not bySource was used)
  if optNonempty p.events then (p.events.getD []).foldl missStep m1
  else m1

/-- Loop body of the totals events branch: positive amounts add damage
and one hit to the totals. -/
def totStep (acc : PerActor) (ev : DamageEvent) : PerActor :=
  if 0 < ev.amount then
    { acc with damage := acc.damage + ev.amount, hits := acc.hits + 1 }
  else acc

/-- addRoundToTotals: accumulate one damage round into the fight-level
totals (lines 324-346 of the source). -/
def addRoundToTotals (p : DamagePayload) (t : PerActor) : PerActor :=
  let t1 :=
    if optNonempty p.bySource then
      { t with
        damage := t.damage + ((p.bySource.getD []).map (fun r => r.totalAsSource)).sum
        hits := t.hits + ((p.bySource.getD []).map (fun r => r.countAsSource)).sum }
    else if optNonempty p.events then
      (p.events.getD []).foldl totStep t
    else
      -- Fallback to payload rollups (rare)
      { t with damage := t.damage + p.totalDamage, hits := t.hits + p.hits }
  if optNonempty p.events then
    { t1 with
      misses := t1.misses +
        (((p.events.getD []).filter (fun ev => ev.amount = 0)).length : ℚ) }
  else
    match p.misses with
    | some mv => { t1 with misses := t1.misses + mv }
    | none => t1

/-- Loop body of the per-round display events pass: damage and hits
are only added when no bySource list was used; a zero amount always
adds one miss; the entry is written back either way. -/
def perStep (hasBySource : Bool) (m : List (String × PerActor)) (ev : DamageEvent) :
    List (String × PerActor) :=
  let name := normalizeActor ev.source
  let cur := getPA m name
  let cur1 :=
    if !hasBySource ∧ 0 < ev.amount then
      { cur with damage := cur.damage + ev.amount, hits := cur.hits + 1 }
    else cur
  let cur2 :=
    if ev.amount = 0 then { cur1 with misses := cur1.misses + 1 } else cur1
  mapSet m name cur2

/-- buildRoundPerSourceLines, map-building part (lines 258-282): the
per-round per-source map before sorting and formatting. -/
def buildRoundPerMap (p : DamagePayload) : List (String × PerActor) :=
  let hasBySource := optNonempty p.bySource
  let m1 :=
    if hasBySource then (p.bySource.getD []).foldl rowStep []
    else []
  if optNonempty p.events then
    (p.events.getD []).foldl (perStep hasBySource) m1
  else m1

/-! Output sink: each writeln of the component is modelled by one
structured line. -/

/-- One line written to the terminal sink. -/
inductive OutLine where
  | narrative (text : String)
  | roundHeader (totalDamage hits : ℚ) (misses : Option ℚ)
  | bySourceHeader
  | perSourceLine (actor : String) (damage hits misses : ℚ)
  | summaryHeader (damage hits misses : ℚ)
  | summaryActorLine (actor : String) (damage hits misses : ℚ)
  | blankLine
deriving DecidableEq

/-- Relation giving the JS stable sort of the per-round display lines,
comparator `(a, b) => b.damage - a.damage || b.hits - a.hits`:
`dispLE a b` holds when `a` may stay before `b`. -/
def dispLE (a b : String × PerActor) : Prop :=
  if a.2.damage = b.2.damage then b.2.hits ≤ a.2.hits else b.2.damage < a.2.damage

instance : DecidableRel dispLE := fun a b => by unfold dispLE; infer_instance

/-- Relation giving the JS stable sort of the flush rows, comparator
`(a, b) => b.damage - a.damage`. -/
def flushLE (a b : String × PerActor) : Prop := b.2.damage ≤ a.2.damage

instance : DecidableRel flushLE := fun a b => by unfold flushLE; infer_instance

/-- buildRoundPerSourceLines, sorting and formatting part (lines
284-287): one display line per contributing actor, sorted by
descending damage then descending hits. -/
def buildRoundPerSourceLines (p : DamagePayload) : List OutLine :=
  (List.insertionSort dispLE (buildRoundPerMap p)).map
    (fun kv => OutLine.perSourceLine kv.1 kv.2.damage kv.2.hits kv.2.misses)

/-! Playback state: the refs of the component that the pipeline
mutates. -/

/-- The mutable refs driving playback and fight batching. -/
structure PlayState where
  lastIndex : Nat
  lastDamageTs : Option ℤ
  nextFlushDeadline : Option ℤ
  fightFlushedByTimer : Bool
  byActor : List (String × PerActor)
  totals : PerActor
  flushedFinal : Bool
deriving DecidableEq

/-- State after loading a log (the reset effect). -/
def initState : PlayState :=
  { lastIndex := 0, lastDamageTs := none, nextFlushDeadline := none
    fightFlushedByTimer := false, byActor := [], totals := PerActor.zero
    flushedFinal := false }

/-- `byActorRef.current.size > 0 || totals.damage > 0 || totals.hits > 0
|| totals.misses > 0`, the accumulator-nonzero guard used by the gap,
timeout and end-of-log checks. -/
def accNonzero (byActor : List (String × PerActor)) (t : PerActor) : Bool :=
  !byActor.isEmpty || decide (0 < t.damage) || decide (0 < t.hits) ||
    decide (0 < t.misses)

/-- flushFightSummary (lines 348-370): no-op on an entirely zero/empty
accumulator, otherwise emit the summary block and clear the fight
state. -/
def flushFightSummary (s : PlayState) : PlayState × List OutLine :=
  if s.byActor.isEmpty && decide (s.totals.damage = 0) &&
      decide (s.totals.hits = 0) && decide (s.totals.misses = 0) then
    (s, [])
  else
    let rows := List.insertionSort flushLE s.byActor
    let rowLines :=
      rows.map (fun kv => OutLine.summaryActorLine kv.1 kv.2.damage kv.2.hits kv.2.misses)
    ({ s with
        byActor := [], totals := PerActor.zero, lastDamageTs := none
        nextFlushDeadline := none, fightFlushedByTimer := true },
      OutLine.summaryHeader s.totals.damage s.totals.hits s.totals.misses ::
        rowLines ++ [OutLine.blankLine])

/-- The gap condition of lines 401-405: a previous damage round exists,
the new round is at least five minutes later, and the accumulator holds
nonzero state. -/
def gapCond (s : PlayState) (ts : ℤ) : Bool :=
  (match s.lastDamageTs with
    | some t0 => decide (FIVE_MIN_MS ≤ ts - t0)
    | none => false) && accNonzero s.byActor s.totals

/-- Process one newly exposed entry (the body of the playback loop,
lines 387-431). -/
def processEntry (s : PlayState) (e : LogEntry) : PlayState × List OutLine :=
  match e with
  | .message _ msg => (s, [OutLine.narrative (if msg.isEmpty then " " else msg)])
  | .damage ts p =>
    let fl := if gapCond s ts then flushFightSummary s else (s, [])
    let srcLines := buildRoundPerSourceLines p
    let srcOut := if srcLines.isEmpty then [] else OutLine.bySourceHeader :: srcLines
    let s2 :=
      { fl.1 with
        byActor := addRoundToActors p fl.1.byActor
        totals := addRoundToTotals p fl.1.totals
        lastDamageTs := some ts
        nextFlushDeadline := some (ts + FIVE_MIN_MS)
        fightFlushedByTimer := false }
    (s2, fl.2 ++ OutLine.roundHeader p.totalDamage p.hits p.misses :: srcOut ++
      [OutLine.blankLine, OutLine.blankLine])

/-- Process a range of entries in order. -/
def emitRange (s : PlayState) : List LogEntry → PlayState × List OutLine
  | [] => (s, [])
  | e :: rest =>
    let r1 := processEntry s e
    let r2 := emitRange r1.1 rest
    (r2.1, r1.2 ++ r2.2)

/-- `entries.findIndex(e => e.ts.getTime() > cutoff)` with -1 replaced
by the length: the index of the first entry whose timestamp strictly
exceeds the cutoff. -/
def computeEnd (cutoff : ℚ) : List LogEntry → Nat
  | [] => 0
  | e :: rest =>
    if cutoff < (e.ts : ℚ) then 0 else computeEnd cutoff rest + 1

/-- Time-based gap flush (lines 437-444): fires when a deadline is set,
the cutoff reached it, the window was not already flushed, and the
accumulator is nonzero. -/
def timeoutStep (cutoff : ℚ) (s : PlayState) : PlayState × List OutLine :=
  if (match s.nextFlushDeadline with
      | some d => decide ((d : ℚ) ≤ cutoff)
      | none => false) && !s.fightFlushedByTimer &&
      accNonzero s.byActor s.totals then
    flushFightSummary s
  else (s, [])

/-- End-of-log flush (lines 446-455): on first arrival at the end,
flush a nonzero accumulator and set the final-flush flag; below the
end, clear the flag. -/
def endStep (endIdx len : Nat) (s : PlayState) : PlayState × List OutLine :=
  let r1 :=
    if endIdx = len ∧ s.flushedFinal = false then
      let r2 :=
        if accNonzero s.byActor s.totals then flushFightSummary s else (s, [])
      ({ r2.1 with flushedFinal := true }, r2.2)
    else (s, [])
  if endIdx ≠ len then ({ r1.1 with flushedFinal := false }, r1.2) else r1

/-- One run of the playback effect (lines 378-456) for a given virtual
elapsed time in seconds. -/
def advance (entries : List LogEntry) (time : ℚ) (s : PlayState) :
    PlayState × List OutLine :=
  match entries with
  | [] => (s, [])
  | e0 :: _ =>
    let cutoff := (e0.ts : ℚ) + time * 1000
    let endIdx := computeEnd cutoff entries
    let r1 := emitRange s ((entries.take endIdx).drop s.lastIndex)
    let s1b := { r1.1 with lastIndex := endIdx }
    let r2 := timeoutStep cutoff s1b
    let r3 := endStep endIdx entries.length r2.1
    (r3.1, r1.2 ++ r2.2 ++ r3.2)

/-! Log parsing.  JSON decoding of one line is modelled by DecodedLine;
parseLog (lines 67-95) collects the recognized records, stable-sorts
by timestamp and dedupes only the dsl-message entries. -/

/-- Decode result of one input line. -/
inductive DecodedLine where
  | malformed
  | other
  | dslMessage (ts : ℤ) (payload : Option String)
  | damage (ts : ℤ) (payload : DamagePayload)
deriving DecidableEq

/-- The raw collection loop of parseLog: dsl-message lines become
message entries (`obj.payload ?? ""`), damage lines become damage
entries, everything else is skipped. -/
def decodeEntries (lines : List DecodedLine) : List LogEntry :=
  lines.filterMap fun
    | .dslMessage ts pl => some (.message ts (pl.getD ""))
    | .damage ts p => some (.damage ts p)
    | _ => none

/-- The sort relation `(a, b) => a.ts.getTime() - b.ts.getTime()`:
`entryLE a b` holds when `a` may stay before `b` under the JS stable
sort. -/
def entryLE (a b : LogEntry) : Prop := a.ts ≤ b.ts

instance : DecidableRel entryLE := fun a b => by unfold entryLE; infer_instance

instance : IsTotal LogEntry entryLE := ⟨fun a b => le_total a.ts b.ts⟩

instance : IsTrans LogEntry entryLE := ⟨fun _ _ _ h1 h2 => le_trans h1 h2⟩

/-- The dedupe pass over the sorted collection: only dsl-message
entries are keyed and dropped on a repeated key; damage entries are
pushed unconditionally. -/
def dedupeEntries : List (ℤ × String) → List LogEntry → List LogEntry
  | _, [] => []
  | seen, e :: rest =>
    match e with
    | .message ts msg =>
      if (ts, msg) ∈ seen then dedupeEntries seen rest
      else LogEntry.message ts msg :: dedupeEntries ((ts, msg) :: seen) rest
    | .damage ts p => LogEntry.damage ts p :: dedupeEntries seen rest

/-- parseLog: decode, stably sort by timestamp, dedupe dsl-message
entries only. -/
def parseLog (lines : List DecodedLine) : List LogEntry :=
  dedupeEntries [] (List.insertionSort entryLE (decodeEntries lines))

/-! ANSI to BBCode translator (lines 98-131).  The output is modelled
as a list of items, one per `out +=` of a tag and one per copied
character; ansiToBBCode renders the items to the output string. -/

/-- One piece appended to the translator output. -/
inductive BBItem where
  | text (c : Char)
  | openTag (name : String)
  | closeTag
deriving DecidableEq

/-- The ansiColorNames record. -/
def ansiColorNames (n : ℕ) : Option String :=
  if n = 30 then some "BLACK"
  else if n = 31 then some "RED"
  else if n = 32 then some "GREEN"
  else if n = 33 then some "YELLOW"
  else if n = 34 then some "BLUE"
  else if n = 35 then some "MAGENTA"
  else if n = 36 then some "CYAN"
  else if n = 37 then some "WHITE"
  else if n = 90 then some "BROWN"
  else if n = 91 then some "ORANGE"
  else if n = 92 then some "LIME GREEN"
  else if n = 93 then some "YELLOW"
  else if n = 94 then some "BLUE"
  else if n = 95 then some "MAGENTA"
  else if n = 96 then some "CYAN"
  else if n = 97 then some "WHITE"
  else if n = 38 then some "PURPLE"
  else none

/-- Result of the pick helper: a numeric foreground code, or a color
name produced by the extended 38;5 form. -/
inductive PickResult where
  | code (n : ℕ)
  | named (s : String)
deriving DecidableEq

/-- `codes.findIndex((c, idx) => c === 38 && codes[idx + 1] === 5)`,
returning `codes[i + 2]` of the first hit (which may be absent, the JS
undefined). -/
def find385 : List ℕ → Option (Option ℕ)
  | 38 :: 5 :: rest => some rest.head?
  | _ :: rest => find385 rest
  | [] => none

/-- The pick helper (lines 106-111): a bright code 90-97 wins, then a
basic code 30-37, then the extended 38;5;n form (index 61 maps to
PURPLE, anything else to XTERM-n; a missing third parameter renders as
the JS undefined). -/
def pick (codes : List ℕ) : Option PickResult :=
  match codes.find? (fun c => 90 ≤ c && c ≤ 97) with
  | some c => some (.code c)
  | none =>
    match codes.find? (fun c => 30 ≤ c && c ≤ 37) with
    | some c => some (.code c)
    | none =>
      match find385 codes with
      | some (some x) =>
        if x = 61 then some (.named "PURPLE")
        else some (.named ("XTERM-" ++ toString x))
      | some none => some (.named "XTERM-undefined")
      | none => none

/-- `typeof col === "number" ? ansiColorNames[col] : col` followed by
the `if (name)` truthiness test. -/
def pickName (codes : List ℕ) : Option String :=
  match pick codes with
  | some (.code n) =>
    match ansiColorNames n with
    | some s => if s = "" then none else some s
    | none => none
  | some (.named s) => if s = "" then none else some s
  | none => none

/-- `m[1].split(";")` on the parameter characters. -/
def splitSemis : List Char → List (List Char)
  | [] => [[]]
  | c :: rest =>
    let r := splitSemis rest
    if c = ';' then [] :: r
    else
      match r with
      | h :: t => (c :: h) :: t
      | [] => [[c]]

/-- `Number(segment)` for a segment of decimal digits; the empty
segment gives 0 as in JS. -/
def segToNat (seg : List Char) : ℕ :=
  seg.foldl (fun acc c => acc * 10 + (c.toNat - '0'.toNat)) 0

/-- `m[1].split(";").map(Number)`. -/
def parseCodes (params : List Char) : List ℕ :=
  (splitSemis params).map segToNat

/-- Characters the SGR parameter group matches. -/
def isParamChar (c : Char) : Bool := c == ';' || ('0' ≤ c && c ≤ '9')

/-- Match the SGR regex at the head of the character list: escape,
bracket, a nonempty run of digits or semicolons, then the letter m.
Returns the parameter characters and the remainder after the match. -/
def scanEsc (cs : List Char) : Option (List Char × List Char) :=
  match cs with
  | c1 :: c2 :: rest =>
    if c1 = '\x1b' ∧ c2 = '[' then
      let params := rest.takeWhile isParamChar
      if params.isEmpty then none
      else
        match rest.drop params.length with
        | c3 :: rest2 => if c3 = 'm' then some (params, rest2) else none
        | [] => none
    else none
  | _ => none

/-- Handling of one matched escape (lines 116-125): the reset code
closes any open tag; then the picked color opens a new tag, first
closing the previous one, unless the character right after the escape
is a closing bracket, in which case the color change is skipped.
Returns the emitted items and the new open-color state. -/
def handleEsc (codes : List ℕ) (nextChar : Option Char) (openC : Option String) :
    List BBItem × Option String :=
  let hasReset := codes.contains 0
  let resetOut := if hasReset && openC.isSome then [BBItem.closeTag] else []
  let open1 : Option String := if hasReset then none else openC
  match pickName codes with
  | some nm =>
    if nextChar = some ']' then (resetOut, open1)
    else
      (resetOut ++ (if open1.isSome then [BBItem.closeTag] else []) ++
        [BBItem.openTag nm], some nm)
  | none => (resetOut, open1)

/-- The scanning loop of ansiToBBCode.  The fuel argument only serves
structural recursion; every step consumes at least one character, so
fuel equal to the character count never runs out (see
ansiGoF_fuel_sufficient below). -/
def ansiGoF : ℕ → List Char → Option String → List BBItem
  | 0, _, openC => if openC.isSome then [BBItem.closeTag] else []
  | _ + 1, [], openC => if openC.isSome then [BBItem.closeTag] else []
  | fuel + 1, c :: rest, openC =>
    match scanEsc (c :: rest) with
    | some (params, rest2) =>
      let (items, open2) := handleEsc (parseCodes params) rest2.head? openC
      items ++ ansiGoF fuel rest2 open2
    | none => BBItem.text c :: ansiGoF fuel rest openC

/-- The item stream of ansiToBBCode for one line. -/
def ansiToBBCodeItems (line : String) : List BBItem :=
  ansiGoF line.data.length line.data none

/-- Render one item as the string appended by the source. -/
def renderBBItem : BBItem → String
  | .text c => String.singleton c
  | .openTag nm => "[COLOR=" ++ nm ++ "]"
  | .closeTag => "[/COLOR]"

/-- ansiToBBCode: translate one line with ANSI SGR escapes to BBCode. -/
def ansiToBBCode (line : String) : String :=
  (ansiToBBCodeItems line).foldl (fun s it => s ++ renderBBItem it) ""

/-! Spec-side derivation figures.  These follow the derivation
precedence in the words of the specification (with the payload-rollup
fallback of the code made explicit) and are compared against the code
functions above. -/

/-- Damage contributed by one round to the fight totals: bySource sums
when that list is nonempty, else positive event amounts, else the
payload rollup totalDamage. -/
def roundDamageTotal (p : DamagePayload) : ℚ :=
  if optNonempty p.bySource then
    ((p.bySource.getD []).map (fun r => r.totalAsSource)).sum
  else if optNonempty p.events then
    (((p.events.getD []).filter (fun ev => 0 < ev.amount)).map (fun ev => ev.amount)).sum
  else p.totalDamage

/-- Hits contributed by one round to the fight totals. -/
def roundHitsTotal (p : DamagePayload) : ℚ :=
  if optNonempty p.bySource then
    ((p.bySource.getD []).map (fun r => r.countAsSource)).sum
  else if optNonempty p.events then
    (((p.events.getD []).filter (fun ev => 0 < ev.amount)).length : ℚ)
  else p.hits

/-- Misses contributed by one round to the fight totals: the count of
zero-amount events when the event list is nonempty, else the round
misses field (absent treated as zero). -/
def roundMissesTotal (p : DamagePayload) : ℚ :=
  if optNonempty p.events then
    (((p.events.getD []).filter (fun ev => ev.amount = 0)).length : ℚ)
  else (p.misses.getD 0)

/-- Damage figure the claim as frozen predicts for one round: bySource
sums when nonempty, otherwise the positive event amounts, with no
further fallback. -/
def claimRoundDamage (p : DamagePayload) : ℚ :=
  if optNonempty p.bySource then
    ((p.bySource.getD []).map (fun r => r.totalAsSource)).sum
  else
    (((p.events.getD []).filter (fun ev => 0 < ev.amount)).map (fun ev => ev.amount)).sum

/-- Damage attributed to normalized actor a by the bySource rows. -/
def rowsDamage (rows : List DamageActorRow) (a : String) : ℚ :=
  ((rows.filter (fun r => normalizeActor r.actor = a)).map (fun r => r.totalAsSource)).sum

/-- Hits attributed to normalized actor a by the bySource rows. -/
def rowsHits (rows : List DamageActorRow) (a : String) : ℚ :=
  ((rows.filter (fun r => normalizeActor r.actor = a)).map (fun r => r.countAsSource)).sum

/-- Damage attributed to normalized actor a by the positive events. -/
def evDamage (evs : List DamageEvent) (a : String) : ℚ :=
  ((evs.filter (fun ev => normalizeActor ev.source = a ∧ 0 < ev.amount)).map
    (fun ev => ev.amount)).sum

/-- Hits attributed to normalized actor a by the positive events. -/
def evHits (evs : List DamageEvent) (a : String) : ℚ :=
  ((evs.filter (fun ev => normalizeActor ev.source = a ∧ 0 < ev.amount)).length : ℚ)

/-- Misses attributed to normalized actor a by the zero-amount events. -/
def evMisses (evs : List DamageEvent) (a : String) : ℚ :=
  ((evs.filter (fun ev => normalizeActor ev.source = a ∧ ev.amount = 0)).length : ℚ)

/-- Per-actor damage figure for one round under the derivation
precedence (no rollup fallback exists on the per-actor side). -/
def actorDamage (p : DamagePayload) (a : String) : ℚ :=
  if optNonempty p.bySource then rowsDamage (p.bySource.getD []) a
  else if optNonempty p.events then evDamage (p.events.getD []) a
  else 0

/-- Per-actor hits figure for one round under the derivation
precedence. -/
def actorHits (p : DamagePayload) (a : String) : ℚ :=
  if optNonempty p.bySource then rowsHits (p.bySource.getD []) a
  else if optNonempty p.events then evHits (p.events.getD []) a
  else 0

/-- Per-actor misses for one round: always the zero-amount events of
that actor. -/
def actorMisses (p : DamagePayload) (a : String) : ℚ :=
  evMisses (p.events.getD []) a

/-- Damage one round adds across the whole per-actor map. -/
def perActorDamageSum (p : DamagePayload) : ℚ :=
  if optNonempty p.bySource then
    ((p.bySource.getD []).map (fun r => r.totalAsSource)).sum
  else if optNonempty p.events then
    (((p.events.getD []).filter (fun ev => 0 < ev.amount)).map (fun ev => ev.amount)).sum
  else 0

/-- Sum of a projection over the values of the actor map. -/
def sumBy (f : PerActor → ℚ) (m : List (String × PerActor)) : ℚ :=
  (m.map (fun kv => f kv.2)).sum

/-! Additional definitions used by the claim statements below. -/

/-- A damage payload carrying only the rollup figures: no bySource
rows and no raw events. -/
def rollupOnlyPayload : DamagePayload :=
  { totalDamage := 10, hits := 2, misses := some 0
    events := none, bySource := none, byTarget := none }

/-- One round processed into the fight accumulator (per-actor map and
totals together, as the playback loop does). -/
def processRoundAcc (acc : List (String × PerActor) × PerActor)
    (p : DamagePayload) : List (String × PerActor) × PerActor :=
  (addRoundToActors p acc.1, addRoundToTotals p acc.2)

/-- A round that contributes per-actor data: a nonempty bySource list
or a nonempty events list. -/
def roundHasData (p : DamagePayload) : Prop :=
  optNonempty p.bySource = true ∨ optNonempty p.events = true

instance (p : DamagePayload) : Decidable (roundHasData p) := by
  unfold roundHasData; infer_instance

/-- A payload whose figures come from raw events: a 3-damage hit by
one actor, a 4-damage hit by another, and one miss. -/
def eventsPayload : DamagePayload :=
  { totalDamage := 7, hits := 2, misses := some 1
    events := some
      [ { raw := "a", source := "Rogar", target := "x", verbKey := "v", amount := 3 }
      , { raw := "b", source := "Mira", target := "x", verbKey := "v", amount := 4 }
      , { raw := "c", source := "Rogar", target := "x", verbKey := "v", amount := 0 } ]
    bySource := none, byTarget := none }

/-- Test for a damage entry. -/
def isDamageEntry : LogEntry → Bool
  | .damage _ _ => true
  | _ => false

/-- Test for a narrative entry with the given timestamp and text. -/
def narrKeyIs (t : ℤ) (msg : String) : LogEntry → Bool
  | .message ts m => decide (ts = t) && decide (m = msg)
  | _ => false

/-- A one-round damage payload used to show that two identical damage
records both survive parsing. -/
def dupPayload : DamagePayload :=
  { totalDamage := 1, hits := 1, misses := some 0
    events := none, bySource := none, byTarget := none }

/-- A concrete accumulator state with a previous damage round at
timestamp 0 and nonzero accumulated state. -/
def gapExampleState : PlayState :=
  { initState with
    lastDamageTs := some 0
    byActor := [("Rogar", ⟨5, 1, 0⟩)]
    totals := ⟨5, 1, 0⟩ }

/-- Test for a fight-summary header line. -/
def isSummaryHeaderLine : OutLine → Bool
  | OutLine.summaryHeader _ _ _ => true
  | _ => false

/-- A concrete nonzero accumulator state for the end-of-log step. -/
def endExampleState : PlayState :=
  { initState with
    byActor := [("Rogar", ⟨5, 1, 0⟩)]
    totals := ⟨5, 1, 0⟩
    nextFlushDeadline := some 600000 }

/-- No five-minute gap inside a run of entries, tracking the previous
damage timestamp. -/
def noGapB : Option ℤ → List LogEntry → Bool
  | _, [] => true
  | last, LogEntry.message _ _ :: rest => noGapB last rest
  | last, LogEntry.damage ts _ :: rest =>
    (match last with
      | some t0 => decide (ts - t0 < FIVE_MIN_MS)
      | none => true) && noGapB (some ts) rest

/-- The damage payload carried by an entry, when it is a damage round. -/
def payloadOf : LogEntry → Option DamagePayload
  | .damage _ p => some p
  | _ => none

/-- Lines that echo a timeline entry: narrative lines and damage round
headers. -/
def isEntryLine : OutLine → Bool
  | OutLine.narrative _ => true
  | OutLine.roundHeader _ _ _ => true
  | _ => false

/-- The line a timeline entry yields when it is processed. -/
def entryEcho : LogEntry → OutLine
  | .message _ msg => OutLine.narrative (if msg.isEmpty then " " else msg)
  | .damage _ p => OutLine.roundHeader p.totalDamage p.hits p.misses

/-- The conjunction claim C6 asserts about one advance of the virtual
clock: the boundary is the first index whose timestamp strictly
exceeds the cutoff (first entry timestamp plus elapsed seconds), or the
length when none exceeds it; an entry with timestamp exactly at the
cutoff is visible (in a sorted timeline); the cursor is set to the
boundary; and, when the crossed range has no five-minute gap, every
entry in the range is echoed in order and every crossed damage round is
accumulated into the totals. -/
def Claim6Conclusion (entries : List LogEntry) (time : ℚ) (s : PlayState)
    (e0 : LogEntry) : Prop :=
  let cutoff := (e0.ts : ℚ) + time * 1000
  let endIdx := computeEnd cutoff entries
  let slice := (entries.take endIdx).drop s.lastIndex
  (∀ (i : ℕ) e, i < endIdx → entries[i]? = some e → (e.ts : ℚ) ≤ cutoff) ∧
  endIdx ≤ entries.length ∧
  (∀ e, entries[endIdx]? = some e → cutoff < (e.ts : ℚ)) ∧
  ((∀ e ∈ entries, (e.ts : ℚ) ≤ cutoff) → endIdx = entries.length) ∧
  (List.Sorted entryLE entries → ∀ (i : ℕ) e, entries[i]? = some e →
    (e.ts : ℚ) = cutoff → i < endIdx) ∧
  (advance entries time s).1.lastIndex = endIdx ∧
  (noGapB s.lastDamageTs slice = true →
    (emitRange s slice).2.filter isEntryLine = slice.map entryEcho ∧
    (emitRange s slice).1.totals.damage =
      s.totals.damage + ((slice.filterMap payloadOf).map roundDamageTotal).sum ∧
    (emitRange s slice).1.totals.hits =
      s.totals.hits + ((slice.filterMap payloadOf).map roundHitsTotal).sum)

/-- A first crossed damage round: one 3-damage hit by one actor. -/
def round6a : DamagePayload :=
  { totalDamage := 3, hits := 1, misses := some 0
    events := some
      [ { raw := "a", source := "Rogar", target := "x", verbKey := "v", amount := 3 } ]
    bySource := none, byTarget := none }

/-- A second crossed damage round: one 4-damage hit by another actor. -/
def round6b : DamagePayload :=
  { totalDamage := 4, hits := 1, misses := some 0
    events := some
      [ { raw := "b", source := "Mira", target := "x", verbKey := "v", amount := 4 } ]
    bySource := none, byTarget := none }

/-- Timeline tail for the claim C6 witness. -/
def entries6tail : List LogEntry :=
  [LogEntry.damage 1000 round6a, LogEntry.damage 2000 round6b]

/-- A three-entry timeline whose playback is jumped across both damage
rounds in one advance. -/
def entries6 : List LogEntry := LogEntry.message 0 "start" :: entries6tail

/-- Count of open color tags among emitted items. -/
def opensCount (l : List BBItem) : ℕ :=
  l.countP (fun it => match it with | BBItem.openTag _ => true | _ => false)

/-- Count of close color tags among emitted items. -/
def closesCount (l : List BBItem) : ℕ :=
  l.countP (fun it => match it with | BBItem.closeTag => true | _ => false)

/-- 1 when a color is open, 0 otherwise. -/
def openBit : Option String → ℕ
  | some _ => 1
  | none => 0

/-- Running tag-depth check: walks the items keeping the number of
currently open tags, failing if a close appears with none open. -/
def chk : ℕ → List BBItem → Option ℕ
  | d, [] => some d
  | d, BBItem.text _ :: rest => chk d rest
  | d, BBItem.openTag _ :: rest => chk (d + 1) rest
  | d, BBItem.closeTag :: rest => if d = 0 then none else chk (d - 1) rest

/-! Map lemmas. -/

theorem mapGet_mapSet (m : List (String × PerActor)) (k : String) (v : PerActor)
    (a : String) :
    mapGet (mapSet m k v) a = if k = a then some v else mapGet m a := by
  induction m with
  | nil => simp [mapSet, mapGet]
  | cons kv rest ih =>
    obtain ⟨k', w⟩ := kv
    by_cases hk : k' = k
    · subst hk
      by_cases ha : k' = a <;> simp [mapSet, mapGet, ha]
    · simp only [mapSet, if_neg hk, mapGet]
      by_cases ha : k' = a
      · subst ha
        have : ¬ k = k' := fun h => hk h.symm
        simp [mapGet, this]
      · simp [mapGet, ha, ih]

theorem getPA_mapSet (m : List (String × PerActor)) (k : String) (v : PerActor)
    (a : String) :
    getPA (mapSet m k v) a = if k = a then v else getPA m a := by
  unfold getPA
  rw [mapGet_mapSet]
  by_cases h : k = a <;> simp [h]

theorem sumBy_mapSet (f : PerActor → ℚ) (hz : f PerActor.zero = 0)
    (m : List (String × PerActor)) (k : String) (v : PerActor) :
    sumBy f (mapSet m k v) = sumBy f m + f v - f (getPA m k) := by
  induction m with
  | nil => simp [mapSet, sumBy, getPA, mapGet, hz]
  | cons kv rest ih =>
    obtain ⟨k', w⟩ := kv
    by_cases hk : k' = k
    · subst hk
      simp [mapSet, sumBy, getPA, mapGet]
      ring
    · simp only [mapSet, if_neg hk, sumBy, List.map_cons, List.sum_cons]
      have hget : getPA ((k', w) :: rest) k = getPA rest k := by
        simp [getPA, mapGet, hk]
      rw [hget]
      have := ih
      simp only [sumBy] at this
      rw [this]
      ring

theorem optNonempty_false {α : Type} {o : Option (List α)}
    (h : optNonempty o = false) : o.getD [] = [] := by
  cases o with
  | none => rfl
  | some l =>
    simp [optNonempty, List.isEmpty_iff] at h
    simp [h]

theorem getPA_nil (a : String) : getPA [] a = PerActor.zero := rfl

/-! Fold lemmas: each loop of the accumulation code, related to the
spec-side sums. -/

theorem getPA_foldl_rowStep (rows : List DamageActorRow)
    (m : List (String × PerActor)) (a : String) :
    getPA (rows.foldl rowStep m) a =
      { damage := (getPA m a).damage + rowsDamage rows a
        hits := (getPA m a).hits + rowsHits rows a
        misses := (getPA m a).misses } := by
  induction rows generalizing m with
  | nil => simp [rowsDamage, rowsHits]
  | cons row rest ih =>
    simp only [List.foldl_cons]
    rw [ih]
    by_cases h : normalizeActor row.actor = a
    · simp only [rowStep, getPA_mapSet, h, if_pos rfl, rowsDamage, rowsHits,
        List.filter_cons, h]
      simp [rowsDamage, rowsHits, List.filter_cons, h, PerActor.mk.injEq]
      repeat' apply And.intro
      all_goals (try push_cast)
      all_goals ring
    · simp only [rowStep, getPA_mapSet, if_neg h]
      simp [rowsDamage, rowsHits, List.filter_cons, h]

theorem getPA_foldl_evStep (evs : List DamageEvent)
    (m : List (String × PerActor)) (a : String) :
    getPA (evs.foldl evStep m) a =
      { damage := (getPA m a).damage + evDamage evs a
        hits := (getPA m a).hits + evHits evs a
        misses := (getPA m a).misses } := by
  induction evs generalizing m with
  | nil => simp [evDamage, evHits]
  | cons ev rest ih =>
    simp only [List.foldl_cons]
    rw [ih]
    by_cases h : normalizeActor ev.source = a
    · by_cases hpos : 0 < ev.amount
      · simp only [evStep, getPA_mapSet, h, if_pos rfl, if_pos hpos]
        simp [evDamage, evHits, List.filter_cons, h, hpos, PerActor.mk.injEq]
        repeat' apply And.intro
        all_goals (try push_cast)
        all_goals ring
      · simp only [evStep, getPA_mapSet, h, if_pos rfl, if_neg hpos]
        simp [evDamage, evHits, List.filter_cons, h, hpos]
    · simp only [evStep, getPA_mapSet, if_neg h]
      simp [evDamage, evHits, List.filter_cons, h]

theorem getPA_foldl_missStep (evs : List DamageEvent)
    (m : List (String × PerActor)) (a : String) :
    getPA (evs.foldl missStep m) a =
      { damage := (getPA m a).damage
        hits := (getPA m a).hits
        misses := (getPA m a).misses + evMisses evs a } := by
  induction evs generalizing m with
  | nil => simp [evMisses]
  | cons ev rest ih =>
    simp only [List.foldl_cons]
    rw [ih]
    by_cases hz : ev.amount = 0
    · by_cases h : normalizeActor ev.source = a
      · simp only [missStep, if_pos hz, getPA_mapSet, h, if_pos rfl]
        simp [evMisses, List.filter_cons, h, hz, PerActor.mk.injEq]
        push_cast
        ring
      · simp only [missStep, if_pos hz, getPA_mapSet, if_neg h]
        simp [evMisses, List.filter_cons, h, hz]
    · simp only [missStep, if_neg hz]
      simp [evMisses, List.filter_cons, hz]

theorem getPA_foldl_perStep (hb : Bool) (evs : List DamageEvent)
    (m : List (String × PerActor)) (a : String) :
    getPA (evs.foldl (perStep hb) m) a =
      { damage := (getPA m a).damage + (if hb then 0 else evDamage evs a)
        hits := (getPA m a).hits + (if hb then 0 else evHits evs a)
        misses := (getPA m a).misses + evMisses evs a } := by
  induction evs generalizing m with
  | nil => cases hb <;> simp [evDamage, evHits, evMisses]
  | cons ev rest ih =>
    simp only [List.foldl_cons]
    rw [ih]
    by_cases h : normalizeActor ev.source = a
    · by_cases hz : ev.amount = 0
      · have hnpos : ¬ 0 < ev.amount := by rw [hz]; exact lt_irrefl 0
        cases hb <;>
          · simp only [perStep, getPA_mapSet, h, if_pos rfl, Bool.not_true,
              Bool.not_false, if_pos hz, hnpos]
            simp [evDamage, evHits, evMisses, List.filter_cons, h, hz, hnpos,
              PerActor.mk.injEq]
            repeat' apply And.intro
            all_goals (try push_cast)
            all_goals ring
      · by_cases hpos : 0 < ev.amount
        · cases hb <;>
            · simp only [perStep, getPA_mapSet, h, if_pos rfl, Bool.not_true,
                Bool.not_false, if_neg hz, hpos]
              simp [evDamage, evHits, evMisses, List.filter_cons, h, hz, hpos,
                PerActor.mk.injEq]
              repeat' apply And.intro
              all_goals (try push_cast)
              all_goals ring
        · cases hb <;>
            · simp only [perStep, getPA_mapSet, h, if_pos rfl, Bool.not_true,
                Bool.not_false, if_neg hz, hpos]
              simp [evDamage, evHits, evMisses, List.filter_cons, h, hz, hpos]
    · simp only [perStep, getPA_mapSet, if_neg h]
      simp [evDamage, evHits, evMisses, List.filter_cons, h]

theorem foldl_totStep (evs : List DamageEvent) (t : PerActor) :
    evs.foldl totStep t =
      { damage := t.damage + ((evs.filter (fun ev => 0 < ev.amount)).map
          (fun ev => ev.amount)).sum
        hits := t.hits + ((evs.filter (fun ev => 0 < ev.amount)).length : ℚ)
        misses := t.misses } := by
  induction evs generalizing t with
  | nil => simp
  | cons ev rest ih =>
    simp only [List.foldl_cons]
    rw [ih]
    by_cases hpos : 0 < ev.amount
    · simp [totStep, hpos, List.filter_cons, PerActor.mk.injEq]
      constructor <;> push_cast <;> ring
    · simp [totStep, hpos, List.filter_cons]

theorem optNonempty_not_true {α : Type} {o : Option (List α)}
    (h : ¬ optNonempty o = true) : o.getD [] = [] := by
  rw [Bool.not_eq_true] at h
  exact optNonempty_false h

/-- The per-actor fight accumulation realizes the per-actor derivation
figures pointwise. -/
theorem addRoundToActors_getPA (p : DamagePayload)
    (m : List (String × PerActor)) (a : String) :
    getPA (addRoundToActors p m) a =
      { damage := (getPA m a).damage + actorDamage p a
        hits := (getPA m a).hits + actorHits p a
        misses := (getPA m a).misses + actorMisses p a } := by
  unfold addRoundToActors actorDamage actorHits actorMisses
  by_cases hb : optNonempty p.bySource = true
  · by_cases he : optNonempty p.events = true
    · simp only [if_pos hb, if_pos he]
      rw [getPA_foldl_missStep, getPA_foldl_rowStep]
    · simp only [if_pos hb, if_neg he]
      rw [getPA_foldl_rowStep, optNonempty_not_true he]
      simp [evMisses]
  · by_cases he : optNonempty p.events = true
    · simp only [if_neg hb, if_pos he]
      rw [getPA_foldl_missStep, getPA_foldl_evStep]
    · simp only [if_neg hb, if_neg he]
      rw [optNonempty_not_true he]
      simp [evMisses]

/-- The per-round display map realizes the per-actor derivation
figures pointwise. -/
theorem buildRoundPerMap_getPA (p : DamagePayload) (a : String) :
    getPA (buildRoundPerMap p) a =
      { damage := actorDamage p a
        hits := actorHits p a
        misses := actorMisses p a } := by
  unfold buildRoundPerMap actorDamage actorHits actorMisses
  by_cases hb : optNonempty p.bySource = true
  · by_cases he : optNonempty p.events = true
    · simp only [if_pos hb, if_pos he]
      rw [getPA_foldl_perStep, getPA_foldl_rowStep]
      simp [getPA_nil, PerActor.zero, hb]
    · simp only [if_pos hb, if_neg he]
      rw [getPA_foldl_rowStep, optNonempty_not_true he]
      simp [getPA_nil, PerActor.zero, evMisses]
  · by_cases he : optNonempty p.events = true
    · simp only [if_neg hb, if_pos he]
      rw [getPA_foldl_perStep]
      simp only [Bool.not_eq_true] at hb
      simp [getPA_nil, PerActor.zero, hb]
    · simp only [if_neg hb, if_neg he]
      rw [optNonempty_not_true he]
      simp [getPA_nil, PerActor.zero, rowsDamage, rowsHits, evMisses]

/-- The totals accumulation realizes the round-level derivation
figures. -/
theorem addRoundToTotals_eq (p : DamagePayload) (t : PerActor) :
    addRoundToTotals p t =
      { damage := t.damage + roundDamageTotal p
        hits := t.hits + roundHitsTotal p
        misses := t.misses + roundMissesTotal p } := by
  unfold addRoundToTotals roundDamageTotal roundHitsTotal roundMissesTotal
  by_cases hb : optNonempty p.bySource = true
  · by_cases he : optNonempty p.events = true
    · simp only [if_pos hb, if_pos he]
    · simp only [if_pos hb, if_neg he]
      cases hm : p.misses with
      | none => simp [hm]
      | some mv => simp [hm]
  · by_cases he : optNonempty p.events = true
    · simp only [if_neg hb, if_pos he]
      rw [foldl_totStep]
    · simp only [if_neg hb, if_neg he]
      cases hm : p.misses with
      | none => simp [hm]
      | some mv => simp [hm]

/-! Sum-of-damage lemmas for the per-actor map. -/

theorem sumBy_damage_foldl_rowStep (rows : List DamageActorRow)
    (m : List (String × PerActor)) :
    sumBy (fun x => x.damage) (rows.foldl rowStep m) =
      sumBy (fun x => x.damage) m + (rows.map (fun r => r.totalAsSource)).sum := by
  induction rows generalizing m with
  | nil => simp
  | cons row rest ih =>
    simp only [List.foldl_cons, List.map_cons, List.sum_cons]
    rw [ih]
    rw [rowStep, sumBy_mapSet (fun x => x.damage) rfl]
    ring

theorem sumBy_damage_foldl_evStep (evs : List DamageEvent)
    (m : List (String × PerActor)) :
    sumBy (fun x => x.damage) (evs.foldl evStep m) =
      sumBy (fun x => x.damage) m +
        ((evs.filter (fun ev => 0 < ev.amount)).map (fun ev => ev.amount)).sum := by
  induction evs generalizing m with
  | nil => simp
  | cons ev rest ih =>
    simp only [List.foldl_cons]
    rw [ih]
    rw [evStep, sumBy_mapSet (fun x => x.damage) rfl]
    by_cases hpos : 0 < ev.amount
    · simp [hpos, List.filter_cons]
      ring
    · simp [hpos, List.filter_cons]

theorem sumBy_damage_foldl_missStep (evs : List DamageEvent)
    (m : List (String × PerActor)) :
    sumBy (fun x => x.damage) (evs.foldl missStep m) =
      sumBy (fun x => x.damage) m := by
  induction evs generalizing m with
  | nil => simp
  | cons ev rest ih =>
    simp only [List.foldl_cons]
    rw [ih]
    by_cases hz : ev.amount = 0
    · rw [missStep, if_pos hz, sumBy_mapSet (fun x => x.damage) rfl]
      ring
    · rw [missStep, if_neg hz]

/-- Damage added across the whole per-actor map by one round. -/
theorem sumBy_damage_addRoundToActors (p : DamagePayload)
    (m : List (String × PerActor)) :
    sumBy (fun x => x.damage) (addRoundToActors p m) =
      sumBy (fun x => x.damage) m + perActorDamageSum p := by
  unfold addRoundToActors perActorDamageSum
  by_cases hb : optNonempty p.bySource = true
  · by_cases he : optNonempty p.events = true
    · simp only [if_pos hb, if_pos he]
      rw [sumBy_damage_foldl_missStep, sumBy_damage_foldl_rowStep]
    · simp only [if_pos hb, if_neg he]
      rw [sumBy_damage_foldl_rowStep]
  · by_cases he : optNonempty p.events = true
    · simp only [if_neg hb, if_pos he]
      rw [sumBy_damage_foldl_missStep, sumBy_damage_foldl_evStep]
    · simp only [if_neg hb, if_neg he]
      simp

/-! Claims C1 and C2: derivation precedence and fight-sum consistency. -/

/-- Claim C1, counterexample to the claim as frozen: for a round with
neither a bySource list nor raw events, the claimed precedence says the
damage figure is the sum over events with positive amount, hence 0; the
code adds the payload rollup totalDamage, here 10, to the fight totals. -/
theorem claim1_rollup_fallback_cex :
    (addRoundToTotals rollupOnlyPayload PerActor.zero).damage = 10 ∧
    claimRoundDamage rollupOnlyPayload = 0 ∧
    (addRoundToTotals rollupOnlyPayload PerActor.zero).damage ≠
      PerActor.zero.damage + claimRoundDamage rollupOnlyPayload := by
  have h1 : (addRoundToTotals rollupOnlyPayload PerActor.zero).damage = 10 := by
    rw [addRoundToTotals_eq]
    show PerActor.zero.damage + roundDamageTotal rollupOnlyPayload = 10
    norm_num [roundDamageTotal, rollupOnlyPayload, optNonempty, PerActor.zero]
  have h2 : claimRoundDamage rollupOnlyPayload = 0 := by
    norm_num [claimRoundDamage, rollupOnlyPayload, optNonempty]
  refine ⟨h1, h2, ?_⟩
  rw [h1, h2]
  norm_num [PerActor.zero]

/-- Claim C1 (amended): per-actor and total damage/hit figures follow
the precedence bySource first, else positive raw events, and the fight
totals additionally fall back to the payload rollup totalDamage/hits
when both lists are absent or empty (per-actor figures then receive no
contribution); miss totals come from the zero-amount events when the
event list is nonempty and only otherwise from the round misses field,
while per-actor misses always come from the zero-amount events.  Stated
for the fight totals, the fight per-actor map, and the per-round
display map, against the spec-side derivation figures. -/
theorem claim1_round_derivation (p : DamagePayload) (t : PerActor)
    (m : List (String × PerActor)) (a : String) :
    addRoundToTotals p t =
      { damage := t.damage + roundDamageTotal p
        hits := t.hits + roundHitsTotal p
        misses := t.misses + roundMissesTotal p } ∧
    getPA (addRoundToActors p m) a =
      { damage := (getPA m a).damage + actorDamage p a
        hits := (getPA m a).hits + actorHits p a
        misses := (getPA m a).misses + actorMisses p a } ∧
    getPA (buildRoundPerMap p) a =
      { damage := actorDamage p a
        hits := actorHits p a
        misses := actorMisses p a } :=
  ⟨addRoundToTotals_eq p t, addRoundToActors_getPA p m a, buildRoundPerMap_getPA p a⟩

theorem perActorDamageSum_eq_total {p : DamagePayload} (h : roundHasData p) :
    perActorDamageSum p = roundDamageTotal p := by
  unfold perActorDamageSum roundDamageTotal
  by_cases hb : optNonempty p.bySource = true
  · simp [if_pos hb]
  · rcases h with h | he
    · exact absurd h hb
    · simp [if_neg hb, if_pos he]

theorem sum_invariant_foldl (rs : List DamagePayload)
    (acc : List (String × PerActor) × PerActor)
    (h : ∀ p ∈ rs, roundHasData p)
    (hinv : sumBy (fun x => x.damage) acc.1 = acc.2.damage) :
    sumBy (fun x => x.damage) (rs.foldl processRoundAcc acc).1 =
      (rs.foldl processRoundAcc acc).2.damage := by
  induction rs generalizing acc with
  | nil => exact hinv
  | cons p rest ih =>
    simp only [List.foldl_cons]
    refine ih _ (fun q hq => h q (List.mem_cons_of_mem _ hq)) ?_
    show sumBy (fun x => x.damage) (addRoundToActors p acc.1) =
      (addRoundToTotals p acc.2).damage
    rw [sumBy_damage_addRoundToActors, addRoundToTotals_eq, hinv,
      perActorDamageSum_eq_total (h p (List.mem_cons_self p rest))]

/-- Claim C2, counterexample to the claim as frozen: a single round
with only rollup figures (no bySource rows, no events) reaches the
flush with total damage 10 while the per-actor map is empty, so the sum
of per-actor damages (0) differs from the reported total by 10, far
beyond one-decimal display rounding; the emitted summary block shows
the total with no per-actor lines. -/
theorem claim2_fight_sum_mismatch_cex :
    ([rollupOnlyPayload].foldl processRoundAcc ([], PerActor.zero)) =
      (([] : List (String × PerActor)), (⟨10, 2, 0⟩ : PerActor)) ∧
    sumBy (fun x => x.damage) ([] : List (String × PerActor)) = 0 ∧
    (flushFightSummary
        { initState with byActor := [], totals := (⟨10, 2, 0⟩ : PerActor) }).2 =
      [OutLine.summaryHeader 10 2 0, OutLine.blankLine] ∧
    (0 : ℚ) ≠ 10 := by
  refine ⟨?_, by simp [sumBy], ?_, by norm_num⟩
  · simp only [List.foldl_cons, List.foldl_nil, processRoundAcc]
    rw [addRoundToTotals_eq]
    norm_num [addRoundToActors, roundDamageTotal, roundHitsTotal,
      roundMissesTotal, rollupOnlyPayload, optNonempty, PerActor.zero,
      PerActor.mk.injEq]
  · norm_num [flushFightSummary, initState, List.insertionSort]

/-- Claim C2 (amended): for any sequence of rounds each of which
carries a nonempty bySource list or a nonempty events list, the sum of
per-actor damages accumulated equals the accumulated total damage
exactly, and the flush rows (the stable descending sort of the map)
sum to the reported flush total. -/
theorem claim2_fight_sum_consistency (rs : List DamagePayload)
    (h : ∀ p ∈ rs, roundHasData p) :
    sumBy (fun x => x.damage) ((rs.foldl processRoundAcc ([], PerActor.zero)).1) =
      ((rs.foldl processRoundAcc ([], PerActor.zero)).2).damage ∧
    ((List.insertionSort flushLE
        ((rs.foldl processRoundAcc ([], PerActor.zero)).1)).map
      (fun kv => kv.2.damage)).sum =
      ((rs.foldl processRoundAcc ([], PerActor.zero)).2).damage := by
  have hsum := sum_invariant_foldl rs ([], PerActor.zero) h
    (by simp [sumBy, PerActor.zero])
  refine ⟨hsum, ?_⟩
  have hperm : List.Perm
      (List.insertionSort flushLE
        ((rs.foldl processRoundAcc ([], PerActor.zero)).1))
      ((rs.foldl processRoundAcc ([], PerActor.zero)).1) :=
    List.perm_insertionSort flushLE _
  calc ((List.insertionSort flushLE
          ((rs.foldl processRoundAcc ([], PerActor.zero)).1)).map
        (fun kv => kv.2.damage)).sum
      = (((rs.foldl processRoundAcc ([], PerActor.zero)).1).map
          (fun kv => kv.2.damage)).sum := (hperm.map _).sum_eq
    _ = ((rs.foldl processRoundAcc ([], PerActor.zero)).2).damage := hsum

/-- Witness for claim C2: the consistency theorem applied to one
concrete events-based round. -/
theorem claim2_fight_sum_consistency_witness :
    (∀ p ∈ [eventsPayload], roundHasData p) ∧
    (sumBy (fun x => x.damage)
        (([eventsPayload].foldl processRoundAcc ([], PerActor.zero)).1) =
      (([eventsPayload].foldl processRoundAcc ([], PerActor.zero)).2).damage ∧
    ((List.insertionSort flushLE
        (([eventsPayload].foldl processRoundAcc ([], PerActor.zero)).1)).map
      (fun kv => kv.2.damage)).sum =
      (([eventsPayload].foldl processRoundAcc ([], PerActor.zero)).2).damage) :=
  ⟨by decide, claim2_fight_sum_consistency [eventsPayload] (by decide)⟩

/-! Claims C3 and C9: deduplication policy, sortedness, stability. -/

theorem dedupe_sublist (seen : List (ℤ × String)) (l : List LogEntry) :
    List.Sublist (dedupeEntries seen l) l := by
  induction l generalizing seen with
  | nil => simp [dedupeEntries]
  | cons e rest ih =>
    cases e with
    | message ts msg =>
      by_cases hmem : (ts, msg) ∈ seen
      · simp only [dedupeEntries, if_pos hmem]
        exact (ih seen).cons _
      · simp only [dedupeEntries, if_neg hmem]
        exact (ih _).cons₂ _
    | damage ts p =>
      simp only [dedupeEntries]
      exact (ih seen).cons₂ _

theorem dedupe_filter_damage (seen : List (ℤ × String)) (l : List LogEntry) :
    (dedupeEntries seen l).filter isDamageEntry = l.filter isDamageEntry := by
  induction l generalizing seen with
  | nil => rfl
  | cons e rest ih =>
    cases e with
    | message ts msg =>
      by_cases hmem : (ts, msg) ∈ seen
      · simp only [dedupeEntries, if_pos hmem, List.filter_cons]
        simp [isDamageEntry, ih]
      · simp only [dedupeEntries, if_neg hmem, List.filter_cons]
        simp [isDamageEntry, ih]
    | damage ts p =>
      simp only [dedupeEntries, List.filter_cons]
      simp [isDamageEntry, ih]

theorem dedupe_filter_narr (seen : List (ℤ × String)) (l : List LogEntry)
    (t : ℤ) (msg : String) :
    (dedupeEntries seen l).filter (narrKeyIs t msg) =
      if (t, msg) ∈ seen then [] else (l.filter (narrKeyIs t msg)).take 1 := by
  induction l generalizing seen with
  | nil => simp [dedupeEntries]
  | cons e rest ih =>
    cases e with
    | message ts m =>
      by_cases hkey : ts = t ∧ m = msg
      · obtain ⟨rfl, rfl⟩ := hkey
        have hk : narrKeyIs ts m (LogEntry.message ts m) = true := by
          simp [narrKeyIs]
        by_cases hmem : (ts, m) ∈ seen
        · simp only [dedupeEntries, if_pos hmem]
          rw [ih seen]
          simp [hmem]
        · simp only [dedupeEntries, if_neg hmem]
          rw [List.filter_cons_of_pos hk, ih ((ts, m) :: seen),
            List.filter_cons_of_pos hk]
          simp [hmem]
      · have hk : ¬ narrKeyIs t msg (LogEntry.message ts m) = true := by
          simp only [narrKeyIs, Bool.and_eq_true, decide_eq_true_eq]
          intro h
          exact hkey ⟨h.1.symm ▸ rfl, h.2.symm ▸ rfl⟩
        have hpair : (t, msg) ≠ (ts, m) := by
          intro h
          rw [Prod.mk.injEq] at h
          exact hkey ⟨h.1.symm, h.2.symm⟩
        by_cases hmem : (ts, m) ∈ seen
        · simp only [dedupeEntries, if_pos hmem]
          rw [ih seen, List.filter_cons_of_neg hk]
        · simp only [dedupeEntries, if_neg hmem]
          rw [List.filter_cons_of_neg hk, ih ((ts, m) :: seen),
            List.filter_cons_of_neg hk]
          have hne : ((t, msg) ∈ (ts, m) :: seen) ↔ (t, msg) ∈ seen := by
            rw [List.mem_cons]
            exact or_iff_right hpair
          by_cases hmem2 : (t, msg) ∈ seen
          · rw [if_pos (hne.mpr hmem2), if_pos hmem2]
          · rw [if_neg (fun h => hmem2 (hne.mp h)), if_neg hmem2]
    | damage ts p =>
      have hk : ¬ narrKeyIs t msg (LogEntry.damage ts p) = true := by
        simp [narrKeyIs]
      simp only [dedupeEntries]
      rw [List.filter_cons_of_neg hk, List.filter_cons_of_neg hk]
      exact ih seen

theorem filter_orderedInsert_ts (a : LogEntry) (l : List LogEntry) (tval : ℤ) :
    (List.orderedInsert entryLE a l).filter (fun e => decide (e.ts = tval)) =
      if a.ts = tval then a :: l.filter (fun e => decide (e.ts = tval))
      else l.filter (fun e => decide (e.ts = tval)) := by
  induction l with
  | nil =>
    simp only [List.orderedInsert, List.filter_cons, List.filter_nil]
    by_cases h : a.ts = tval <;> simp [h]
  | cons b bs ih =>
    by_cases hle : entryLE a b
    · rw [List.orderedInsert_of_le entryLE bs hle]
      by_cases h : a.ts = tval <;> simp [List.filter_cons, h]
    · simp only [List.orderedInsert, if_neg hle]
      have hblt : b.ts < a.ts := lt_of_not_le hle
      by_cases hb : b.ts = tval
      · have ha : ¬ a.ts = tval := by
          intro h
          rw [h, hb] at hblt
          exact lt_irrefl tval hblt
        rw [@List.filter_cons_of_pos _ (fun e => decide (e.ts = tval)) b
            (List.orderedInsert entryLE a bs) (by simp [hb]),
          ih, if_neg ha, if_neg ha,
          @List.filter_cons_of_pos _ (fun e => decide (e.ts = tval)) b bs
            (by simp [hb])]
      · rw [@List.filter_cons_of_neg _ (fun e => decide (e.ts = tval)) b
            (List.orderedInsert entryLE a bs) (by simp [hb]),
          ih,
          @List.filter_cons_of_neg _ (fun e => decide (e.ts = tval)) b bs
            (by simp [hb])]

theorem filter_insertionSort_ts (l : List LogEntry) (tval : ℤ) :
    (List.insertionSort entryLE l).filter (fun e => decide (e.ts = tval)) =
      l.filter (fun e => decide (e.ts = tval)) := by
  induction l with
  | nil => rfl
  | cons a bs ih =>
    simp only [List.insertionSort]
    rw [filter_orderedInsert_ts, List.filter_cons]
    by_cases h : a.ts = tval
    · rw [if_pos h, if_pos (by simp [h]), ih]
    · rw [if_neg h, if_neg (by simp [h]), ih]

/-- Claim C3: in the timeline returned by parseLog, narrative entries
with a given timestamp and text reduce to the first such entry of the
sorted collection (so later duplicates are dropped and at most one
survives), while the deduplication pass removes no damage entry; in
particular two damage records with identical timestamp and identical
aggregate fields both survive. -/
theorem claim3_parseLog_dedupe (lines : List DecodedLine) (t : ℤ) (msg : String) :
    (parseLog lines).filter (narrKeyIs t msg) =
      ((List.insertionSort entryLE (decodeEntries lines)).filter
        (narrKeyIs t msg)).take 1 ∧
    ((parseLog lines).filter (narrKeyIs t msg)).length ≤ 1 ∧
    (parseLog lines).filter isDamageEntry =
      (List.insertionSort entryLE (decodeEntries lines)).filter isDamageEntry ∧
    parseLog [DecodedLine.damage 5 dupPayload, DecodedLine.damage 5 dupPayload] =
      [LogEntry.damage 5 dupPayload, LogEntry.damage 5 dupPayload] := by
  have h1 : (parseLog lines).filter (narrKeyIs t msg) =
      ((List.insertionSort entryLE (decodeEntries lines)).filter
        (narrKeyIs t msg)).take 1 := by
    unfold parseLog
    rw [dedupe_filter_narr]
    simp
  refine ⟨h1, ?_, ?_, ?_⟩
  · rw [h1, List.length_take]
    exact min_le_left _ _
  · unfold parseLog
    exact dedupe_filter_damage _ _
  · rfl

/-- Claim C9: the timeline returned by parseLog is sorted
non-decreasing by timestamp; the sort pass is stable (the entries at
any fixed timestamp are exactly the decoded entries at that timestamp
in file order) and the dedupe pass only removes entries, so the
surviving entries at any fixed timestamp keep their file order. -/
theorem claim9_parseLog_sorted_stable (lines : List DecodedLine) (tval : ℤ) :
    List.Sorted entryLE (parseLog lines) ∧
    (List.insertionSort entryLE (decodeEntries lines)).filter
        (fun e => decide (e.ts = tval)) =
      (decodeEntries lines).filter (fun e => decide (e.ts = tval)) ∧
    List.Sublist (parseLog lines)
      (List.insertionSort entryLE (decodeEntries lines)) ∧
    List.Sublist ((parseLog lines).filter (fun e => decide (e.ts = tval)))
      ((decodeEntries lines).filter (fun e => decide (e.ts = tval))) := by
  have hsub : List.Sublist (parseLog lines)
      (List.insertionSort entryLE (decodeEntries lines)) :=
    dedupe_sublist [] _
  have hsorted : List.Sorted entryLE
      (List.insertionSort entryLE (decodeEntries lines)) :=
    List.sorted_insertionSort entryLE _
  have hstable := filter_insertionSort_ts (decodeEntries lines) tval
  refine ⟨List.Pairwise.sublist hsub hsorted, hstable, hsub, ?_⟩
  rw [← hstable]
  exact List.Sublist.filter _ hsub

/-! Claim C4: the gap-triggered flush. -/

theorem accNonzero_flush_guard {s : PlayState}
    (h : accNonzero s.byActor s.totals = true) :
    ¬ (s.byActor.isEmpty && decide (s.totals.damage = 0) &&
       decide (s.totals.hits = 0) && decide (s.totals.misses = 0)) = true := by
  intro hg
  simp only [Bool.and_eq_true, decide_eq_true_eq] at hg
  obtain ⟨⟨⟨h1, h2⟩, h3⟩, h4⟩ := hg
  simp only [accNonzero, Bool.or_eq_true, Bool.not_eq_true',
    decide_eq_true_eq] at h
  rcases h with ((hh | hh) | hh) | hh
  · rw [h1] at hh
    cases hh
  · exact absurd h2 (ne_of_gt hh)
  · exact absurd h3 (ne_of_gt hh)
  · exact absurd h4 (ne_of_gt hh)

/-- A nonzero accumulator makes flushFightSummary emit the summary
block and clear the fight state. -/
theorem flushFightSummary_of_nonzero {s : PlayState}
    (h : accNonzero s.byActor s.totals = true) :
    flushFightSummary s =
      ({ s with
          byActor := [], totals := PerActor.zero, lastDamageTs := none
          nextFlushDeadline := none, fightFlushedByTimer := true },
        OutLine.summaryHeader s.totals.damage s.totals.hits s.totals.misses ::
          (List.insertionSort flushLE s.byActor).map
            (fun kv => OutLine.summaryActorLine kv.1 kv.2.damage kv.2.hits kv.2.misses)
          ++ [OutLine.blankLine]) := by
  unfold flushFightSummary
  rw [if_neg (accNonzero_flush_guard h)]

theorem gapCond_spec (s : PlayState) (ts : ℤ) :
    gapCond s ts = true ↔
      ((∃ t0, s.lastDamageTs = some t0 ∧ FIVE_MIN_MS ≤ ts - t0) ∧
        accNonzero s.byActor s.totals = true) := by
  unfold gapCond
  cases hl : s.lastDamageTs with
  | none => simp
  | some t0 => simp [Bool.and_eq_true]

/-- Claim C4: when a damage round is processed, a fight summary is
emitted before the round header, and the round is accumulated into a
cleared accumulator, exactly when a previous round exists, the gap is
at least five minutes, and the accumulator is nonzero; a gap of
exactly 300000 ms triggers the flush on a nonzero accumulator and a
gap of 299000 ms does not. -/
theorem claim4_gap_flush_iff (s : PlayState) (ts : ℤ) (p : DamagePayload) :
    ((processEntry s (.damage ts p)).2.head? =
        some (OutLine.summaryHeader s.totals.damage s.totals.hits s.totals.misses)
      ↔ gapCond s ts = true) ∧
    (gapCond s ts = true ↔
      ((∃ t0, s.lastDamageTs = some t0 ∧ FIVE_MIN_MS ≤ ts - t0) ∧
        accNonzero s.byActor s.totals = true)) ∧
    (processEntry s (.damage ts p)).1.totals =
      addRoundToTotals p (if gapCond s ts then PerActor.zero else s.totals) ∧
    (processEntry s (.damage ts p)).1.byActor =
      addRoundToActors p (if gapCond s ts then [] else s.byActor) ∧
    gapCond gapExampleState 300000 = true ∧
    gapCond gapExampleState 299000 = false := by
  refine ⟨?_, gapCond_spec s ts, ?_, ?_, ?_, ?_⟩
  · cases hgap : gapCond s ts with
    | true =>
      have hacc : accNonzero s.byActor s.totals = true :=
        ((gapCond_spec s ts).mp hgap).2
      simp only [processEntry, hgap, if_true,
        flushFightSummary_of_nonzero hacc]
      simp
    | false =>
      simp only [processEntry, hgap, Bool.false_eq_true, if_false]
      simp
  · cases hgap : gapCond s ts with
    | true =>
      have hacc : accNonzero s.byActor s.totals = true :=
        ((gapCond_spec s ts).mp hgap).2
      simp only [processEntry, hgap, if_true,
        flushFightSummary_of_nonzero hacc]
    | false =>
      simp only [processEntry, hgap, Bool.false_eq_true, if_false]
  · cases hgap : gapCond s ts with
    | true =>
      have hacc : accNonzero s.byActor s.totals = true :=
        ((gapCond_spec s ts).mp hgap).2
      simp only [processEntry, hgap, if_true,
        flushFightSummary_of_nonzero hacc]
    | false =>
      simp only [processEntry, hgap, Bool.false_eq_true, if_false]
  · decide
  · decide

/-! Claim C5: the end-of-log flush and the final-flush flag. -/

theorem countP_summary_actorLines (rows : List (String × PerActor)) :
    (rows.map (fun kv =>
      OutLine.summaryActorLine kv.1 kv.2.damage kv.2.hits kv.2.misses)).countP
        isSummaryHeaderLine = 0 := by
  induction rows with
  | nil => rfl
  | cons kv rest ih => simp [List.countP_cons, isSummaryHeaderLine, ih]

/-- Claim C5: when the visible boundary reaches the timeline length for
the first time (final-flush flag still clear) with a nonzero
accumulator, the end-of-log step emits exactly one fight-summary flush
and sets the flag — the step never consults the flush deadline, so this
holds whether or not the five-minute deadline has elapsed; when the
boundary is below the length, the flag is cleared again.  The last
conjunct places the end-of-log step inside advance. -/
theorem claim5_end_of_log_flush :
    (∀ endIdx len (s : PlayState), endIdx = len → s.flushedFinal = false →
      accNonzero s.byActor s.totals = true →
      ((endStep endIdx len s).2.countP isSummaryHeaderLine = 1 ∧
        (endStep endIdx len s).1.flushedFinal = true ∧
        (endStep endIdx len s).1.byActor = [] ∧
        (endStep endIdx len s).1.totals = PerActor.zero)) ∧
    (∀ endIdx len (s : PlayState), endIdx ≠ len →
      (endStep endIdx len s).1.flushedFinal = false) ∧
    (∀ (entries : List LogEntry) (time : ℚ) (s : PlayState) e0 rest,
      entries = e0 :: rest →
      advance entries time s =
        (let cutoff := ((e0.ts : ℚ) + time * 1000)
         let endIdx := computeEnd cutoff entries
         let r1 := emitRange s ((entries.take endIdx).drop s.lastIndex)
         let r2 := timeoutStep cutoff { r1.1 with lastIndex := endIdx }
         let r3 := endStep endIdx entries.length r2.1
         (r3.1, r1.2 ++ r2.2 ++ r3.2))) := by
  refine ⟨?_, ?_, ?_⟩
  · intro endIdx len s hlen hff hacc
    subst hlen
    unfold endStep
    have hc : endIdx = endIdx ∧ s.flushedFinal = false := ⟨rfl, hff⟩
    have hnn : ¬ endIdx ≠ endIdx := fun hne => hne rfl
    rw [if_pos hc, if_pos hacc, flushFightSummary_of_nonzero hacc, if_neg hnn]
    refine ⟨?_, rfl, rfl, rfl⟩
    simp [List.countP_cons, List.countP_append, isSummaryHeaderLine,
      countP_summary_actorLines]
  · intro endIdx len s hne
    unfold endStep
    have hno : ¬ (endIdx = len ∧ s.flushedFinal = false) := fun hand => hne hand.1
    rw [if_neg hno, if_pos hne]
  · intro entries time s e0 rest h
    subst h
    rfl

/-- Witness for claim C5: the end-of-log flush at a concrete state
whose deadline (600000) is far from elapsed. -/
theorem claim5_end_of_log_flush_witness :
    ((3 : Nat) = 3 ∧ endExampleState.flushedFinal = false ∧
      accNonzero endExampleState.byActor endExampleState.totals = true) ∧
    ((endStep 3 3 endExampleState).2.countP isSummaryHeaderLine = 1 ∧
      (endStep 3 3 endExampleState).1.flushedFinal = true ∧
      (endStep 3 3 endExampleState).1.byActor = [] ∧
      (endStep 3 3 endExampleState).1.totals = PerActor.zero) ∧
    (endStep 2 3 endExampleState).1.flushedFinal = false :=
  ⟨⟨rfl, rfl, by decide⟩,
    claim5_end_of_log_flush.1 3 3 endExampleState rfl rfl (by decide),
    claim5_end_of_log_flush.2.1 2 3 endExampleState (by decide)⟩

/-! Claim C6: cutoff, visible boundary, and range processing. -/

theorem computeEnd_le_length (cutoff : ℚ) (l : List LogEntry) :
    computeEnd cutoff l ≤ l.length := by
  induction l with
  | nil => exact Nat.le_refl 0
  | cons e rest ih =>
    unfold computeEnd
    by_cases hc : cutoff < (e.ts : ℚ)
    · rw [if_pos hc]
      exact Nat.zero_le _
    · rw [if_neg hc]
      exact Nat.succ_le_succ ih

theorem computeEnd_before (cutoff : ℚ) :
    ∀ (l : List LogEntry) (i : ℕ), i < computeEnd cutoff l →
      ∀ e, l[i]? = some e → (e.ts : ℚ) ≤ cutoff := by
  intro l
  induction l with
  | nil => intro i hi; exact absurd hi (Nat.not_lt_zero i)
  | cons a rest ih =>
    intro i hi e hget
    unfold computeEnd at hi
    by_cases hc : cutoff < (a.ts : ℚ)
    · rw [if_pos hc] at hi
      exact absurd hi (Nat.not_lt_zero i)
    · rw [if_neg hc] at hi
      cases i with
      | zero =>
        rw [List.getElem?_cons_zero] at hget
        cases hget
        exact le_of_not_lt hc
      | succ j =>
        rw [List.getElem?_cons_succ] at hget
        exact ih j (Nat.lt_of_succ_lt_succ hi) e hget

theorem computeEnd_at (cutoff : ℚ) :
    ∀ (l : List LogEntry) e, l[computeEnd cutoff l]? = some e →
      cutoff < (e.ts : ℚ) := by
  intro l
  induction l with
  | nil => intro e hget; cases hget
  | cons a rest ih =>
    intro e hget
    unfold computeEnd at hget
    by_cases hc : cutoff < (a.ts : ℚ)
    · rw [if_pos hc, List.getElem?_cons_zero] at hget
      cases hget
      exact hc
    · rw [if_neg hc, List.getElem?_cons_succ] at hget
      exact ih e hget

theorem computeEnd_of_all_le (cutoff : ℚ) :
    ∀ (l : List LogEntry), (∀ e ∈ l, (e.ts : ℚ) ≤ cutoff) →
      computeEnd cutoff l = l.length := by
  intro l
  induction l with
  | nil => intro _; rfl
  | cons a rest ih =>
    intro h
    unfold computeEnd
    rw [if_neg (not_lt_of_le (h a (List.mem_cons_self a rest)))]
    rw [ih (fun e he => h e (List.mem_cons_of_mem a he))]
    rfl

theorem ts_eq_cutoff_visible (cutoff : ℚ) (l : List LogEntry)
    (hs : List.Sorted entryLE l) (i : ℕ) (e : LogEntry)
    (hget : l[i]? = some e) (heq : (e.ts : ℚ) = cutoff) :
    i < computeEnd cutoff l := by
  by_contra hcon
  push_neg at hcon
  have hilen : i < l.length := (List.getElem?_eq_some.mp hget).1
  have hblen : computeEnd cutoff l < l.length := lt_of_le_of_lt hcon hilen
  have hbg : l[computeEnd cutoff l]? = some l[computeEnd cutoff l] :=
    List.getElem?_eq_getElem hblen
  have hcb := computeEnd_at cutoff l _ hbg
  rcases Nat.lt_or_ge (computeEnd cutoff l) i with hlt | hge
  · have hrel := List.pairwise_iff_getElem.mp hs _ _ hblen hilen hlt
    have hie : l[i] = e := by
      have := List.getElem?_eq_some.mp hget
      exact this.2
    rw [hie] at hrel
    have : (l[computeEnd cutoff l].ts : ℚ) ≤ (e.ts : ℚ) := by
      exact_mod_cast hrel
    rw [heq] at this
    exact absurd (lt_of_lt_of_le hcb this) (lt_irrefl cutoff)
  · have hieq : computeEnd cutoff l = i := le_antisymm hcon hge
    have hbg2 : l[computeEnd cutoff l]? = some e := by
      rw [hieq]
      exact hget
    have hcb2 := computeEnd_at cutoff l e hbg2
    rw [heq] at hcb2
    exact lt_irrefl cutoff hcb2

theorem noGapB_cons_message (last : Option ℤ) (ts : ℤ) (msg : String)
    (rest : List LogEntry) :
    noGapB last (LogEntry.message ts msg :: rest) = noGapB last rest := rfl

theorem noGapB_cons_damage (last : Option ℤ) (ts : ℤ) (p : DamagePayload)
    (rest : List LogEntry) :
    noGapB last (LogEntry.damage ts p :: rest) =
      ((match last with
        | some t0 => decide (ts - t0 < FIVE_MIN_MS)
        | none => true) && noGapB (some ts) rest) := rfl

theorem filter_entry_perSource (l : List (String × PerActor)) :
    (l.map (fun kv =>
      OutLine.perSourceLine kv.1 kv.2.damage kv.2.hits kv.2.misses)).filter
        isEntryLine = [] := by
  induction l with
  | nil => rfl
  | cons kv rest ih => simp [List.filter_cons, isEntryLine, ih]

theorem filter_entry_srcOut (p : DamagePayload) :
    (if (buildRoundPerSourceLines p).isEmpty then []
      else OutLine.bySourceHeader :: buildRoundPerSourceLines p).filter
        isEntryLine = [] := by
  by_cases h : (buildRoundPerSourceLines p).isEmpty
  · rw [if_pos h]
    rfl
  · rw [if_neg h]
    rw [List.filter_cons_of_neg (by simp [isEntryLine])]
    unfold buildRoundPerSourceLines
    exact filter_entry_perSource _

theorem filter_entry_flushOut (s : PlayState) :
    (flushFightSummary s).2.filter isEntryLine = [] := by
  unfold flushFightSummary
  by_cases h : (s.byActor.isEmpty && decide (s.totals.damage = 0) &&
      decide (s.totals.hits = 0) && decide (s.totals.misses = 0)) = true
  · rw [if_pos h]
    rfl
  · rw [if_neg h]
    have hnk : ¬ isEntryLine (OutLine.summaryHeader s.totals.damage
        s.totals.hits s.totals.misses) = true := by simp [isEntryLine]
    show List.filter isEntryLine
      ((OutLine.summaryHeader s.totals.damage s.totals.hits s.totals.misses ::
        List.map (fun kv => OutLine.summaryActorLine kv.1 kv.2.damage kv.2.hits
          kv.2.misses) (List.insertionSort flushLE s.byActor)) ++
        [OutLine.blankLine]) = []
    rw [List.filter_append, List.filter_cons_of_neg hnk]
    have h1 : ((List.insertionSort flushLE s.byActor).map (fun kv =>
        OutLine.summaryActorLine kv.1 kv.2.damage kv.2.hits kv.2.misses)).filter
          isEntryLine = [] := by
      generalize List.insertionSort flushLE s.byActor = rows
      induction rows with
      | nil => rfl
      | cons kv rest ih => simp [List.filter_cons, isEntryLine, ih]
    rw [h1]
    rfl

/-- Range processing with no five-minute gap: each entry echoes its
line in order and every damage round is accumulated into the totals. -/
theorem emitRange_spec (slice : List LogEntry) :
    ∀ (s : PlayState), noGapB s.lastDamageTs slice = true →
      (emitRange s slice).2.filter isEntryLine = slice.map entryEcho ∧
      (emitRange s slice).1.totals.damage =
        s.totals.damage +
          ((slice.filterMap payloadOf).map roundDamageTotal).sum ∧
      (emitRange s slice).1.totals.hits =
        s.totals.hits + ((slice.filterMap payloadOf).map roundHitsTotal).sum := by
  induction slice with
  | nil =>
    intro s _
    refine ⟨rfl, by simp [emitRange], by simp [emitRange]⟩
  | cons e rest ih =>
    intro s hng
    cases e with
    | message ts msg =>
      have hng2 : noGapB s.lastDamageTs rest = true := by
        rw [noGapB_cons_message] at hng
        exact hng
      obtain ⟨ih1, ih2, ih3⟩ := ih s hng2
      refine ⟨?_, ?_, ?_⟩
      · show ((processEntry s (.message ts msg)).2 ++
          (emitRange s rest).2).filter isEntryLine = _
        rw [List.filter_append]
        show ([OutLine.narrative (if msg.isEmpty then " " else msg)].filter
            isEntryLine) ++ _ = _
        have hnk : isEntryLine (OutLine.narrative
            (if msg.isEmpty then " " else msg)) = true := by simp [isEntryLine]
        rw [List.filter_cons_of_pos hnk]
        simp only [List.filter_nil, List.map_cons]
        rw [ih1]
        rfl
      · show (emitRange s rest).1.totals.damage = _
        rw [ih2]
        rfl
      · show (emitRange s rest).1.totals.hits = _
        rw [ih3]
        rfl
    | damage ts p =>
      rw [noGapB_cons_damage, Bool.and_eq_true] at hng
      obtain ⟨hgap, hng2⟩ := hng
      have hgc : gapCond s ts = false := by
        unfold gapCond
        cases hl : s.lastDamageTs with
        | none => rfl
        | some t0 =>
          rw [hl] at hgap
          have : ts - t0 < FIVE_MIN_MS := of_decide_eq_true hgap
          simp [Bool.and_eq_true, decide_eq_true_eq]
          intro hge
          exact absurd this (not_lt_of_le hge)
      have hle : processEntry s (.damage ts p) =
          ({ s with
              byActor := addRoundToActors p s.byActor
              totals := addRoundToTotals p s.totals
              lastDamageTs := some ts
              nextFlushDeadline := some (ts + FIVE_MIN_MS)
              fightFlushedByTimer := false },
            OutLine.roundHeader p.totalDamage p.hits p.misses ::
              (if (buildRoundPerSourceLines p).isEmpty then []
                else OutLine.bySourceHeader :: buildRoundPerSourceLines p) ++
              [OutLine.blankLine, OutLine.blankLine]) := by
        simp only [processEntry]
        rw [hgc]
        rfl
      set s2 : PlayState :=
        { s with
          byActor := addRoundToActors p s.byActor
          totals := addRoundToTotals p s.totals
          lastDamageTs := some ts
          nextFlushDeadline := some (ts + FIVE_MIN_MS)
          fightFlushedByTimer := false } with hs2
      have hng3 : noGapB s2.lastDamageTs rest = true := hng2
      obtain ⟨ih1, ih2, ih3⟩ := ih s2 hng3
      have hemit : emitRange s (LogEntry.damage ts p :: rest) =
          ((emitRange s2 rest).1,
            (processEntry s (.damage ts p)).2 ++ (emitRange s2 rest).2) := by
        show ((emitRange (processEntry s (.damage ts p)).1 rest).1,
          (processEntry s (.damage ts p)).2 ++
            (emitRange (processEntry s (.damage ts p)).1 rest).2) = _
        rw [hle]
      refine ⟨?_, ?_, ?_⟩
      · rw [hemit]
        show ((processEntry s (.damage ts p)).2 ++
          (emitRange s2 rest).2).filter isEntryLine = _
        rw [List.filter_append, ih1, hle]
        have hrk : isEntryLine (OutLine.roundHeader p.totalDamage p.hits
            p.misses) = true := by simp [isEntryLine]
        show List.filter isEntryLine
            ((OutLine.roundHeader p.totalDamage p.hits p.misses ::
              (if (buildRoundPerSourceLines p).isEmpty then []
                else OutLine.bySourceHeader :: buildRoundPerSourceLines p)) ++
              [OutLine.blankLine, OutLine.blankLine]) ++
            List.map entryEcho rest = _
        rw [List.filter_append, List.filter_cons_of_pos hrk,
          filter_entry_srcOut]
        simp [entryEcho, isEntryLine]
      · rw [hemit]
        show (emitRange s2 rest).1.totals.damage = _
        rw [ih2, hs2]
        show (addRoundToTotals p s.totals).damage + _ = _
        rw [addRoundToTotals_eq]
        show s.totals.damage + roundDamageTotal p + _ = _
        rw [List.filterMap_cons]
        show _ = s.totals.damage +
          ((p :: rest.filterMap payloadOf).map roundDamageTotal).sum
        rw [List.map_cons, List.sum_cons]
        ring
      · rw [hemit]
        show (emitRange s2 rest).1.totals.hits = _
        rw [ih3, hs2]
        show (addRoundToTotals p s.totals).hits + _ = _
        rw [addRoundToTotals_eq]
        show s.totals.hits + roundHitsTotal p + _ = _
        rw [List.filterMap_cons]
        show _ = s.totals.hits +
          ((p :: rest.filterMap payloadOf).map roundHitsTotal).sum
        rw [List.map_cons, List.sum_cons]
        ring

theorem flushFightSummary_lastIndex (s : PlayState) :
    (flushFightSummary s).1.lastIndex = s.lastIndex := by
  unfold flushFightSummary
  split <;> rfl

theorem timeoutStep_lastIndex (cutoff : ℚ) (s : PlayState) :
    (timeoutStep cutoff s).1.lastIndex = s.lastIndex := by
  unfold timeoutStep
  split
  · exact flushFightSummary_lastIndex s
  · rfl

theorem endStep_lastIndex (endIdx len : Nat) (s : PlayState) :
    (endStep endIdx len s).1.lastIndex = s.lastIndex := by
  simp only [endStep]
  by_cases h1 : endIdx = len ∧ s.flushedFinal = false <;>
    by_cases h2 : accNonzero s.byActor s.totals = true <;>
      by_cases h3 : endIdx ≠ len <;>
        simp [h1, h2, h3, flushFightSummary_lastIndex]

theorem advance_lastIndex (entries : List LogEntry) (time : ℚ) (s : PlayState)
    (e0 : LogEntry) (rest : List LogEntry) (h : entries = e0 :: rest) :
    (advance entries time s).1.lastIndex =
      computeEnd ((e0.ts : ℚ) + time * 1000) entries := by
  subst h
  show (endStep _ _ _).1.lastIndex = _
  rw [endStep_lastIndex, timeoutStep_lastIndex]

/-- Claim C6: cutoff computation, visible boundary, and in-order
processing of every newly exposed entry, for one advance of the
playback clock on a nonempty timeline. -/
theorem claim6_advance_boundary (entries : List LogEntry) (time : ℚ)
    (s : PlayState) (e0 : LogEntry) (rest : List LogEntry)
    (h : entries = e0 :: rest) :
    Claim6Conclusion entries time s e0 := by
  unfold Claim6Conclusion
  refine ⟨?_, computeEnd_le_length _ _, ?_, ?_, ?_, ?_, ?_⟩
  · intro i e hi hget
    exact computeEnd_before _ entries i hi e hget
  · intro e hget
    exact computeEnd_at _ entries e hget
  · intro hall
    exact computeEnd_of_all_le _ entries hall
  · intro hs i e hget heq
    exact ts_eq_cutoff_visible _ entries hs i e hget heq
  · exact advance_lastIndex entries time s e0 rest h
  · intro hng
    exact emitRange_spec _ s hng

/-- Witness for claim C6: the boundary and processing facts applied to
a concrete three-entry timeline crossed in one ten-second advance. -/
theorem claim6_advance_boundary_witness :
    (entries6 = LogEntry.message 0 "start" :: entries6tail) ∧
    Claim6Conclusion entries6 10 initState (LogEntry.message 0 "start") :=
  ⟨rfl, claim6_advance_boundary entries6 10 initState
    (LogEntry.message 0 "start") entries6tail rfl⟩

/-! Claims C7, C8 and C10: the ANSI translator. -/

theorem chk_append (l1 l2 : List BBItem) :
    ∀ d, chk d (l1 ++ l2) =
      match chk d l1 with
      | some d' => chk d' l2
      | none => none := by
  induction l1 with
  | nil => intro d; rfl
  | cons it rest ih =>
    intro d
    cases it with
    | text c => exact ih d
    | openTag nm => exact ih (d + 1)
    | closeTag =>
      show (if d = 0 then none else chk (d - 1) (rest ++ l2)) = _
      by_cases hd : d = 0
      · rw [if_pos hd]
        show _ = (match (if d = 0 then none else chk (d - 1) rest : Option ℕ) with
          | some d' => chk d' l2
          | none => none)
        rw [if_pos hd]
      · rw [if_neg hd]
        rw [ih (d - 1)]
        show _ = (match (if d = 0 then none else chk (d - 1) rest : Option ℕ) with
          | some d' => chk d' l2
          | none => none)
        rw [if_neg hd]

theorem chk_bridge (l : List BBItem) :
    ∀ (d d' : ℕ), chk d l = some d' →
      (opensCount l + d = closesCount l + d' ∧
        ∀ n, closesCount (l.take n) ≤ opensCount (l.take n) + d) := by
  induction l with
  | nil =>
    intro d d' h
    cases h
    exact ⟨rfl, fun n => by simp [closesCount, opensCount]⟩
  | cons it rest ih =>
    intro d d' h
    cases it with
    | text c =>
      obtain ⟨ih1, ih2⟩ := ih d d' h
      refine ⟨?_, ?_⟩
      · simpa [opensCount, closesCount, List.countP_cons] using ih1
      · intro n
        cases n with
        | zero => simp [closesCount, opensCount]
        | succ m =>
          simp only [List.take_succ_cons]
          simpa [opensCount, closesCount, List.countP_cons] using ih2 m
    | openTag nm =>
      obtain ⟨ih1, ih2⟩ := ih (d + 1) d' h
      refine ⟨?_, ?_⟩
      · simp only [opensCount, closesCount, List.countP_cons] at ih1 ⊢
        simp at ih1 ⊢
        omega
      · intro n
        cases n with
        | zero => simp [closesCount, opensCount]
        | succ m =>
          simp only [List.take_succ_cons]
          have := ih2 m
          simp only [opensCount, closesCount, List.countP_cons] at this ⊢
          simp at this ⊢
          omega
    | closeTag =>
      have hd : ¬ d = 0 := by
        intro hd0
        rw [hd0] at h
        simp [chk] at h
      rw [show chk d (BBItem.closeTag :: rest) =
          if d = 0 then none else chk (d - 1) rest from rfl, if_neg hd] at h
      obtain ⟨ih1, ih2⟩ := ih (d - 1) d' h
      refine ⟨?_, ?_⟩
      · simp only [opensCount, closesCount, List.countP_cons] at ih1 ⊢
        simp at ih1 ⊢
        omega
      · intro n
        cases n with
        | zero => simp [closesCount, opensCount]
        | succ m =>
          simp only [List.take_succ_cons]
          have := ih2 m
          simp only [opensCount, closesCount, List.countP_cons] at this ⊢
          simp at this ⊢
          omega

theorem chk_handleEsc (codes : List ℕ) (nc : Option Char) (o : Option String) :
    chk (openBit o) (handleEsc codes nc o).1 =
      some (openBit (handleEsc codes nc o).2) := by
  unfold handleEsc
  cases o with
  | none =>
    cases hpn : pickName codes with
    | none =>
      by_cases hr : (0 : ℕ) ∈ codes <;> simp [hr, chk, openBit]
    | some nm =>
      by_cases hnc : nc = some ']' <;>
        by_cases hr : (0 : ℕ) ∈ codes <;>
          simp [hnc, hr, chk, openBit]
  | some nm0 =>
    cases hpn : pickName codes with
    | none =>
      by_cases hr : (0 : ℕ) ∈ codes <;> simp [hr, chk, openBit]
    | some nm =>
      by_cases hnc : nc = some ']' <;>
        by_cases hr : (0 : ℕ) ∈ codes <;>
          simp [hnc, hr, chk, openBit]

theorem chk_ansiGoF (fuel : ℕ) :
    ∀ (cs : List Char) (o : Option String),
      chk (openBit o) (ansiGoF fuel cs o) = some 0 := by
  induction fuel with
  | zero =>
    intro cs o
    cases o with
    | none => rfl
    | some nm => rfl
  | succ f ih =>
    intro cs o
    cases cs with
    | nil =>
      cases o with
      | none => rfl
      | some nm => rfl
    | cons c rest =>
      show chk (openBit o)
        (match scanEsc (c :: rest) with
          | some (params, rest2) =>
            (handleEsc (parseCodes params) rest2.head? o).1 ++
              ansiGoF f rest2 (handleEsc (parseCodes params) rest2.head? o).2
          | none => BBItem.text c :: ansiGoF f rest o) = some 0
      cases hscan : scanEsc (c :: rest) with
      | none =>
        show chk (openBit o) (BBItem.text c :: ansiGoF f rest o) = some 0
        show chk (openBit o) (ansiGoF f rest o) = some 0
        exact ih rest o
      | some pr =>
        obtain ⟨params, rest2⟩ := pr
        show chk (openBit o)
          ((handleEsc (parseCodes params) rest2.head? o).1 ++
            ansiGoF f rest2 (handleEsc (parseCodes params) rest2.head? o).2) =
          some 0
        rw [chk_append]
        rw [chk_handleEsc]
        exact ih rest2 _

/-- Claim C10: every translated line has balanced emitted color
markup: as many open tags as close tags overall, and in every prefix
of the emitted items the closes never outnumber the opens. -/
theorem claim10_markup_balanced (line : String) :
    opensCount (ansiToBBCodeItems line) = closesCount (ansiToBBCodeItems line) ∧
    ∀ n, closesCount ((ansiToBBCodeItems line).take n) ≤
      opensCount ((ansiToBBCodeItems line).take n) := by
  have h := chk_ansiGoF line.data.length line.data none
  have hb := chk_bridge (ansiToBBCodeItems line) 0 0 h
  refine ⟨by omega, fun n => by have := hb.2 n; omega⟩

/-- Claim C8: on the nested-color input, the translator emits exactly
one open tag before A, a close then a reopen before B, a close before
C, and nothing after C; the escapes themselves are consumed and the
plain text is copied verbatim, as the item stream shows. -/
theorem claim8_nested_colors :
    ansiToBBCodeItems ("\x1b[31mA \x1b[32mB \x1b[0mC") =
      [BBItem.openTag "RED", BBItem.text 'A', BBItem.text ' ',
        BBItem.closeTag, BBItem.openTag "GREEN", BBItem.text 'B',
        BBItem.text ' ', BBItem.closeTag, BBItem.text 'C'] ∧
    ansiToBBCode ("\x1b[31mA \x1b[32mB \x1b[0mC") =
      "[COLOR=RED]A [/COLOR][COLOR=GREEN]B [/COLOR]C" := by
  refine ⟨?_, ?_⟩ <;> decide

/-- Claim C7, counterexample to the claim as frozen: an escape whose
following character is a closing bracket can still close a tag.  In
the input below the second escape carries the reset code 0 and is
followed by a literal bracket; the translator emits a close tag for it
(the claim as stated predicts no tag closed, which would leave RED
open and yield the alternative string shown to differ). -/
theorem claim7_reset_close_cex :
    handleEsc [0] (some ']') (some "RED") = ([BBItem.closeTag], none) ∧
    ansiToBBCodeItems ("\x1b[31mA\x1b[0m]") =
      [BBItem.openTag "RED", BBItem.text 'A', BBItem.closeTag, BBItem.text ']'] ∧
    ansiToBBCode ("\x1b[31mA\x1b[0m]") = "[COLOR=RED]A[/COLOR]]" ∧
    ansiToBBCode ("\x1b[31mA\x1b[0m]") ≠ "[COLOR=RED]A][/COLOR]" := by
  refine ⟨?_, ?_, ?_, ?_⟩ <;> decide

/-- Claim C7 (amended): when the character immediately following an
escape is a closing bracket, the color change is suppressed — no tag is
opened and no close-for-switch is emitted — but a reset code in the
escape still closes any open tag; in particular the red escape followed
only by a bracket yields the literal bracket with no tag emitted. -/
theorem claim7_bracket_suppression (codes : List ℕ) (o : Option String) :
    (handleEsc codes (some ']') o).1 =
      (if codes.contains 0 && o.isSome then [BBItem.closeTag] else []) ∧
    (handleEsc codes (some ']') o).2 =
      (if codes.contains 0 then none else o) ∧
    opensCount (handleEsc codes (some ']') o).1 = 0 ∧
    ansiToBBCodeItems ("\x1b[31m]") = [BBItem.text ']'] ∧
    ansiToBBCode ("\x1b[31m]") = "]" := by
  refine ⟨?_, ?_, ?_, by decide, by decide⟩ <;>
    · unfold handleEsc
      cases hpn : pickName codes <;>
        by_cases hr : (0 : ℕ) ∈ codes <;>
          cases o <;> simp [hr, opensCount]

end DslLogViewer
